import Mathlib

/-!
Verification of the nlbn EasyEDA-to-KiCad conversion engine.

The Rust sources are embedded shallowly:
* coordinates and style values (`f64` in the source) become `ℚ` where only
  field arithmetic occurs, and `ℝ` where trigonometry occurs;
* strings become `List Char`;
* fallible operations return `Option`/`Except`;
* the sequential batch loop becomes a pure fold carrying the shared counters.

Each embedded definition cites the source location it is translated from.
-/

namespace Nlbn

/-! ## Symbol-space coordinate normalization (main.rs, process_component) -/

/-- Pin position conversion, main.rs lines 210-211 and 234-235:
`adjusted_x = x - bbox_x`, `adjusted_y = y - bbox_y`, emitted as
`(adjusted_x, -adjusted_y)`. -/
def pin_target_pos (bx b_y x y : ℚ) : ℚ × ℚ :=
  let adjusted_x := x - bx
  let adjusted_y := y - b_y
  (adjusted_x, -adjusted_y)

/-- Rectangle corner conversion, main.rs lines 243-246: both corners are
converted independently, `y` via `bbox_y - y`. -/
def rect_target_corners (bx b_y x y w h : ℚ) : (ℚ × ℚ) × (ℚ × ℚ) :=
  ((x - bx, b_y - y), ((x + w) - bx, b_y - (y + h)))

/-- Circle center conversion, main.rs lines 263-264. -/
def circle_target_center (bx b_y cx cy : ℚ) : ℚ × ℚ :=
  (cx - bx, b_y - cy)

/-- Ellipse center conversion, main.rs lines 278-279 (the ellipse degrades to a
circle of radius `(rx+ry)/2`, line 282). -/
def ellipse_target_center (bx b_y cx cy : ℚ) : ℚ × ℚ :=
  (cx - bx, b_y - cy)

/-- Ellipse radius degradation, main.rs line 282. -/
def ellipse_target_radius (rx ry : ℚ) : ℚ :=
  (rx + ry) / 2

/-- Polyline/polygon point conversion, main.rs lines 336-339 and 353-356. -/
def poly_point_target (bx b_y x y : ℚ) : ℚ × ℚ :=
  (x - bx, b_y - y)

/-- Path point conversion used inside the path tokenizer, main.rs lines
386-387 and 393-394. -/
def path_point_target (bx b_y x y : ℚ) : ℚ × ℚ :=
  (x - bx, b_y - y)

/-! ## Footprint-space coordinate normalization -/

/-- Footprint pad position conversion, main.rs lines 510-511:
translation only, no Y inversion. -/
def pad_target_pos (pbx pby x y : ℚ) : ℚ × ℚ :=
  (x - pbx, y - pby)

/-! ## Symbol rectangles: fill policy (main.rs lines 242-259) -/

/-- Source symbol rectangle record (easyeda importer fields used by
main.rs lines 242-259). -/
structure EeRectangle where
  x : ℚ
  y : ℚ
  width : ℚ
  height : ℚ
  stroke_width : ℚ
  fill : Bool
deriving DecidableEq, Repr

/-- Target symbol rectangle (kicad::KiRectangle fields set at
main.rs lines 251-258). -/
structure KiRectangle where
  x1 : ℚ
  y1 : ℚ
  x2 : ℚ
  y2 : ℚ
  stroke_width : ℚ
  fill : Bool
deriving DecidableEq, Repr

/-- Rectangle list conversion, main.rs lines 242-259: `enumerate` supplies the
index and the first rectangle is forced filled (`idx == 0`). -/
def convert_symbol_rectangles (bx b_y : ℚ) (rects : List EeRectangle) :
    List KiRectangle :=
  rects.enum.map fun p =>
    { x1 := p.2.x - bx
      y1 := b_y - p.2.y
      x2 := (p.2.x + p.2.width) - bx
      y2 := b_y - (p.2.y + p.2.height)
      stroke_width := p.2.stroke_width
      fill := if p.1 = 0 then true else p.2.fill }

/-! ## Pad classification and drill policy (main.rs lines 457-507) -/

/-- kicad::PadType variants used by the converter. -/
inductive PadType where
  | ThroughHole
  | Smd
  | NpThroughHole
deriving DecidableEq, Repr

/-- kicad::Drill as populated at main.rs lines 472-507. -/
structure Drill where
  diameter : ℚ
  width : Option ℚ
  offset_x : ℚ
  offset_y : ℚ
deriving DecidableEq, Repr

/-- Pad classification, main.rs lines 458-462: a hole radius marks a
through-hole pad. -/
def pad_type_of (hole_radius : Option ℚ) : PadType :=
  match hole_radius with
  | some _ => PadType.ThroughHole
  | none => PadType.Smd

/-- Drill construction, main.rs lines 472-507. -/
def pad_drill (hole_radius hole_length : Option ℚ) (width height : ℚ) :
    Option Drill :=
  match hole_radius with
  | some hr =>
    match hole_length with
    | some hl =>
      let max_distance_hole := max (hr * 2) hl
      let pos_0 := height - max_distance_hole
      let pos_90 := width - max_distance_hole
      if pos_0 > pos_90 then
        some { diameter := hr * 2, width := some hl, offset_x := 0, offset_y := 0 }
      else
        some { diameter := hl, width := some (hr * 2), offset_x := 0, offset_y := 0 }
    | none =>
      some { diameter := hr * 2, width := none, offset_x := 0, offset_y := 0 }
  | none => none

/-! ## Path tokenizer (main.rs lines 369-420)

Strings are embedded as `List Char`. -/

/-- Whitespace splitting with an accumulator, mirroring Rust
`split_whitespace` (empty tokens are never produced). -/
def splitWsAux : List Char → List Char → List (List Char)
  | [], acc => if acc = [] then [] else [acc.reverse]
  | c :: cs, acc =>
    if c.isWhitespace then
      if acc = [] then splitWsAux cs [] else acc.reverse :: splitWsAux cs []
    else
      splitWsAux cs (c :: acc)

/-- Rust `str::split_whitespace`, main.rs line 371. -/
def splitWs (l : List Char) : List (List Char) :=
  splitWsAux l []

/-- Rust `str::split_once(sep)`: split at the first occurrence of `sep`,
`none` when `sep` does not occur. -/
def splitOnceChar (sep : Char) : List Char → Option (List Char × List Char)
  | [] => none
  | c :: cs =>
    if c = sep then some ([], cs)
    else (splitOnceChar sep cs).map fun p => (c :: p.1, p.2)

/-- Value of a decimal digit character. -/
def charDigit (c : Char) : Option ℕ :=
  if '0' ≤ c ∧ c ≤ '9' then some (c.toNat - '0'.toNat) else none

/-- Accumulate decimal digits; fails on a non-digit character. -/
def digitsToNatAux : List Char → ℕ → Option ℕ
  | [], acc => some acc
  | c :: cs, acc =>
    match charDigit c with
    | some d => digitsToNatAux cs (acc * 10 + d)
    | none => none

/-- Parse a non-empty run of decimal digits. -/
def parseDigits (l : List Char) : Option ℕ :=
  if l = [] then none else digitsToNatAux l 0

/-- Modelled from the spec: the Rust standard library `f64::from_str`
(outside the sources provided) stands in for numeric-token parsing; decimal
numerals with an optional sign and fractional part, which covers the
restricted path grammar of spec section 4.4. Unsigned part. -/
def parseUnsigned (s : List Char) : Option ℚ :=
  match splitOnceChar '.' s with
  | none => (parseDigits s).map fun n => (n : ℚ)
  | some (ip, fp) =>
    if ip = [] ∧ fp = [] then none
    else
      match (if ip = [] then some 0 else parseDigits ip),
            (if fp = [] then some 0 else parseDigits fp) with
      | some i, some f => some ((i : ℚ) + (f : ℚ) / (10 : ℚ) ^ fp.length)
      | _, _ => none

/-- Modelled from the spec: Rust `f64::from_str` with an optional leading
sign (see `parseUnsigned`). -/
def parseQ (s : List Char) : Option ℚ :=
  match s with
  | '-' :: rest => (parseUnsigned rest).map fun q => -q
  | '+' :: rest => parseUnsigned rest
  | _ => parseUnsigned s

/-- One iteration of the token loop of main.rs lines 375-411, processing
`tok` (the current token) with `rest` the tokens after it; returns the
tokens still to process and the updated point list.  `M`/`L` consume the
following coordinate pair, given either as one `x,y` token or as two
separate numeric tokens (a failed parse consumes no extra token); `Z`/`z`
appends a duplicate of the first recorded point; any other token is
ignored. -/
def path_step (bx b_y : ℚ) (tok : List Char) (rest : List (List Char))
    (pts : List (ℚ × ℚ)) : List (List Char) × List (ℚ × ℚ) :=
  if tok = "M".toList ∨ tok = "L".toList then
    match rest with
    | [] => ([], pts)
    | coord :: rest2 =>
      match splitOnceChar ',' coord with
      | some (xs, ys) =>
        match parseQ xs with
        | some x =>
          match parseQ ys with
          | some y => (rest2, pts ++ [path_point_target bx b_y x y])
          | none => (rest2, pts)
        | none => (rest2, pts)
      | none =>
        match rest2 with
        | [] => ([], pts)
        | ytok :: rest3 =>
          match parseQ coord with
          | some x =>
            match parseQ ytok with
            | some y => (rest3, pts ++ [path_point_target bx b_y x y])
            | none => (ytok :: rest3, pts)
          | none => (ytok :: rest3, pts)
  else if tok = "Z".toList ∨ tok = "z".toList then
    match pts with
    | [] => (rest, pts)
    | p :: _ => (rest, pts ++ [p])
  else
    (rest, pts)

/-- A loop iteration never lengthens the remaining token list. -/
theorem path_step_length_le (bx b_y : ℚ) (tok : List Char)
    (rest : List (List Char)) (pts : List (ℚ × ℚ)) :
    (path_step bx b_y tok rest pts).1.length ≤ rest.length := by
  unfold path_step
  split_ifs
  · cases rest with
    | nil => simp
    | cons coord rest2 =>
      cases hs : splitOnceChar ',' coord with
      | some p =>
        obtain ⟨xs, ys⟩ := p
        simp only [hs]
        cases hx : parseQ xs <;> cases hy : parseQ ys <;>
          simp +arith [hx, hy]
      | none =>
        simp only [hs]
        cases rest2 with
        | nil => simp
        | cons ytok rest3 =>
          cases hx : parseQ coord <;> cases hy : parseQ ytok <;>
            simp +arith [hx, hy]
  · cases pts <;> simp
  · simp

/-- The token loop of main.rs lines 375-411: iterate `path_step` until the
tokens are exhausted. -/
def path_tokens_to_points (bx b_y : ℚ) : List (List Char) → List (ℚ × ℚ) →
    List (ℚ × ℚ)
  | [], pts => pts
  | tok :: rest, pts =>
    let s := path_step bx b_y tok rest pts
    path_tokens_to_points bx b_y s.1 s.2
termination_by toks _ => toks.length
decreasing_by
  calc (path_step bx b_y tok rest pts).1.length
      ≤ rest.length := path_step_length_le bx b_y tok rest pts
    _ < (tok :: rest).length := by simp +arith

/-- Point sequence produced for one path record, main.rs lines 369-411. -/
def ee_path_points (bx b_y : ℚ) (path_data : List Char) : List (ℚ × ℚ) :=
  path_tokens_to_points bx b_y (splitWs path_data) []

/-! ## Sequential batch loop (main.rs `run`, lines 114-143)

The shared `Arc` counters and the failed-identifier list become one state
record threaded through a fold; `attempted` records, in order, the
identifiers for which `process_component` was invoked.  The per-component
conversion is abstracted as a function `f` into `Except`. -/

/-- Aggregated batch statistics (success/failed counters, failed-identifier
list) plus the processing trace. -/
structure BatchState (α : Type) where
  attempted : List α
  success : ℕ
  failed : ℕ
  failed_ids : List α
deriving DecidableEq, Repr

/-- Initial batch state: all counters zero. -/
def initBatch {α : Type} : BatchState α :=
  { attempted := [], success := 0, failed := 0, failed_ids := [] }

/-- Sequential processing mode, main.rs lines 114-143: on success the success
counter is bumped; on failure the failure counter is bumped and the
identifier appended, then `continue_on_error = false` returns the error
immediately while `true` continues with the next identifier. -/
def process_sequential {α ε : Type} (f : α → Except ε Unit)
    (continue_on_error : Bool) :
    List α → BatchState α → BatchState α × Option ε
  | [], st => (st, none)
  | lcsc_id :: rest, st =>
    let st1 := { st with attempted := st.attempted ++ [lcsc_id] }
    match f lcsc_id with
    | Except.ok _ =>
      process_sequential f continue_on_error rest
        { st1 with success := st1.success + 1 }
    | Except.error e =>
      let st2 := { st1 with failed := st1.failed + 1,
                            failed_ids := st1.failed_ids ++ [lcsc_id] }
      if continue_on_error then
        process_sequential f continue_on_error rest st2
      else
        (st2, some e)

/-- Whether a conversion outcome is a success. -/
def isOkE {ε : Type} (r : Except ε Unit) : Bool :=
  match r with
  | Except.ok _ => true
  | Except.error _ => false

/-! ## Pad rotation conversion (main.rs lines 917-925) -/

/-- angle_to_ki, main.rs lines 919-925. -/
def angle_to_ki (rotation : ℚ) : ℚ :=
  if rotation > 180 then -(360 - rotation) else rotation

/-! ## Symbol-library removal (main.rs remove_component_from_symbol_lib,
lines 1002-1051)

File contents are embedded as `List Char`. -/

/-- Split at every newline, keeping empty segments (helper for Rust
`str::lines`). -/
def splitNl : List Char → List (List Char)
  | [] => [[]]
  | c :: cs =>
    match splitNl cs with
    | [] => [[]]
    | h :: t => if c = '\n' then [] :: h :: t else (c :: h) :: t

/-- Strip one trailing carriage return (helper for Rust `str::lines`). -/
def stripCr (l : List Char) : List Char :=
  match l.getLast? with
  | some '\r' => l.dropLast
  | _ => l

/-- Rust `str::lines`: split on `'\n'`; every segment that was terminated by
a newline has one trailing `'\r'` stripped; a trailing empty segment is
dropped, and an unterminated final segment is kept as-is. -/
def rustLines (s : List Char) : List (List Char) :=
  let parts := splitNl s
  parts.dropLast.map stripCr ++
    (match parts.getLast? with
     | some [] => []
     | some l => [l]
     | none => [])

/-- Rust `str::trim`: drop leading and trailing whitespace. -/
def trimChars (l : List Char) : List Char :=
  ((l.dropWhile Char.isWhitespace).reverse.dropWhile Char.isWhitespace).reverse

/-- Rust `str::contains(needle)`: contiguous-subsequence test. -/
def containsSeq (needle : List Char) : List Char → Bool
  | [] => needle.isEmpty
  | c :: rest => needle.isPrefixOf (c :: rest) || containsSeq needle rest

/-- Opening-marker test of main.rs line 1016:
`line.trim().starts_with("(symbol") && line.contains(lcsc_id)`. -/
def markerLine (lcsc : List Char) (l : List Char) : Bool :=
  "(symbol".toList.isPrefixOf (trimChars l) && containsSeq lcsc l

/-- Net parenthesis count of one line, main.rs lines 1024-1030. -/
def parenDelta (l : List Char) : Int :=
  l.foldl (fun d c => if c = '(' then d + 1 else if c = ')' then d - 1 else d) 0

/-- Loop state of main.rs lines 1010-1013. -/
structure RemoveState where
  in_target : Bool
  found : Bool
  depth : Int
  out : List (List Char)
deriving DecidableEq, Repr

/-- One iteration of the line loop, main.rs lines 1015-1039. -/
def remove_step (lcsc : List Char) (st : RemoveState) (l : List Char) :
    RemoveState :=
  if markerLine lcsc l then
    { st with in_target := true, found := true, depth := 1 }
  else if st.in_target then
    let d := st.depth + parenDelta l
    if d = 0 then { st with depth := d, in_target := false }
    else { st with depth := d }
  else
    { st with out := st.out ++ [l] }

/-- Rewritten file contents, main.rs lines 1041-1049: each kept line is
written back with `writeln!`, i.e. followed by one `'\n'`. -/
def writeLines (ls : List (List Char)) : List Char :=
  (ls.map fun l => l ++ ['\n']).flatten

/-- remove_component_from_symbol_lib, main.rs lines 1002-1051: returns the
resulting file contents and the `found` flag (the file is only rewritten
when the identifier was found). -/
def remove_component_from_symbol_lib (content lcsc : List Char) :
    List Char × Bool :=
  let st := (rustLines content).foldl (remove_step lcsc)
    { in_target := false, found := false, depth := 0, out := [] }
  if st.found then (writeLines st.out, true) else (content, false)

/-- Sum of per-line parenthesis deltas. -/
def parenSum (ls : List (List Char)) : Int :=
  (ls.map parenDelta).sum

/-! ## Arc mathematics (real-valued)

Angles and coordinates here are `ℝ`; the source works in `f64` and its
numeric-tolerance statements are idealized to exact real equalities. -/

/-- Rust `f64::to_radians`. -/
noncomputable def toRadians (deg : ℝ) : ℝ :=
  deg * Real.pi / 180

/-- Rust `f64::atan2` (self = y, other = x): the angle of the point `(x, y)`,
embedded via the complex argument. -/
noncomputable def atan2 (y x : ℝ) : ℝ :=
  Complex.arg ((x : ℂ) + (y : ℂ) * Complex.I)

/-- Symbol arc conversion, main.rs lines 296-330: forward-compute start, end
and angular-bisector midpoint from center + radius + angles (degrees), then
apply the symbol bbox adjustment to each point. -/
noncomputable def symbol_arc_target (bx b_y cx cy radius θs θe : ℝ) :
    (ℝ × ℝ) × (ℝ × ℝ) × (ℝ × ℝ) :=
  let start_angle_rad := toRadians θs
  let end_angle_rad := toRadians θe
  let start_x := cx + radius * Real.cos start_angle_rad
  let start_y := cy + radius * Real.sin start_angle_rad
  let end_x := cx + radius * Real.cos end_angle_rad
  let end_y := cy + radius * Real.sin end_angle_rad
  let mid_angle_rad := (start_angle_rad + end_angle_rad) / 2
  let mid_x := cx + radius * Real.cos mid_angle_rad
  let mid_y := cy + radius * Real.sin mid_angle_rad
  ((start_x - bx, b_y - start_y), (mid_x - bx, b_y - mid_y),
    (end_x - bx, b_y - end_y))

/-- Footprint arc midpoint-angle heuristic, main.rs lines 702-715: the mean
of the start/end angles (radians), shifted by π when the sign of the angular
difference disagrees with the sweep flag. -/
noncomputable def arc_mid_angle (start_angle_deg end_angle_deg : ℝ)
    (sweep : Bool) : ℝ :=
  let start_rad := toRadians start_angle_deg
  let end_rad := toRadians end_angle_deg
  let mid := (start_rad + end_rad) / 2
  let angle_diff := end_rad - start_rad
  if (sweep = true ∧ angle_diff < 0) ∨ (sweep = false ∧ angle_diff > 0) then
    mid + Real.pi
  else
    mid

/-- ArcGeometryError of spec section 4.3(b). -/
inductive ArcError where
  | zeroRadius
deriving DecidableEq, Repr

/-- Modelled from the spec (section 4.3(b)): local-frame coordinates of the
endpoint-to-center parameterization of `Converter::compute_arc_center`, whose
source (the converter module) is not among the files provided.  The start
and end points are rotated by the negated x-axis rotation about their
midpoint; this returns `(x1', y1')`. -/
noncomputable def arcLocal (p1 p2 : ℝ × ℝ) (x_rotation : ℝ) : ℝ × ℝ :=
  let φ := toRadians x_rotation
  let dx2 := (p1.1 - p2.1) / 2
  let dy2 := (p1.2 - p2.2) / 2
  (Real.cos φ * dx2 + Real.sin φ * dy2,
    -Real.sin φ * dx2 + Real.cos φ * dy2)

/-- Modelled from the spec (section 4.3(b)): the feasibility measure
`Λ = x1'²/rx² + y1'²/ry²` of the standard endpoint-to-center
parameterization. -/
noncomputable def arcLambda (p1 p2 : ℝ × ℝ) (radii : ℝ × ℝ)
    (x_rotation : ℝ) : ℝ :=
  let l := arcLocal p1 p2 x_rotation
  l.1 ^ 2 / radii.1 ^ 2 + l.2 ^ 2 / radii.2 ^ 2

/-- Modelled from the spec (section 4.3(b)): radii too small to span the two
endpoints are scaled up uniformly by the minimal feasible factor `√Λ`. -/
noncomputable def effective_radii (p1 p2 : ℝ × ℝ) (radii : ℝ × ℝ)
    (x_rotation : ℝ) : ℝ × ℝ :=
  let Λ := arcLambda p1 p2 radii x_rotation
  if 1 < Λ then (radii.1 * Real.sqrt Λ, radii.2 * Real.sqrt Λ)
  else radii

/-- Modelled from the spec (section 4.3(b)): signed center coefficient of the
standard parameterization, the root being selected by the large-arc/sweep
flag combination. -/
noncomputable def arcCo (p1 p2 : ℝ × ℝ) (radii : ℝ × ℝ) (x_rotation : ℝ)
    (large_arc sweep : Bool) : ℝ :=
  let r := effective_radii p1 p2 radii x_rotation
  let l := arcLocal p1 p2 x_rotation
  let sign : ℝ := if large_arc ≠ sweep then 1 else -1
  sign * Real.sqrt ((r.1 ^ 2 * r.2 ^ 2 - r.1 ^ 2 * l.2 ^ 2 - r.2 ^ 2 * l.1 ^ 2) /
    (r.1 ^ 2 * l.2 ^ 2 + r.2 ^ 2 * l.1 ^ 2))

/-- Modelled from the spec (section 4.3(b)): candidate center in the local
frame. -/
noncomputable def arcCenterLocal (p1 p2 : ℝ × ℝ) (radii : ℝ × ℝ)
    (x_rotation : ℝ) (large_arc sweep : Bool) : ℝ × ℝ :=
  let r := effective_radii p1 p2 radii x_rotation
  let l := arcLocal p1 p2 x_rotation
  let co := arcCo p1 p2 radii x_rotation large_arc sweep
  (co * r.1 * l.2 / r.2, -(co * r.2 * l.1 / r.1))

/-- Modelled from the spec (section 4.3(b)): center and start/end angles (in
degrees) produced by the successful branch of `compute_arc_center`. -/
noncomputable def arc_center_angles (p1 p2 : ℝ × ℝ) (radii : ℝ × ℝ)
    (x_rotation : ℝ) (large_arc sweep : Bool) : ℝ × ℝ × ℝ × ℝ :=
  let φ := toRadians x_rotation
  let l := arcLocal p1 p2 x_rotation
  let r := effective_radii p1 p2 radii x_rotation
  let c := arcCenterLocal p1 p2 radii x_rotation large_arc sweep
  let cx := Real.cos φ * c.1 - Real.sin φ * c.2 + (p1.1 + p2.1) / 2
  let cy := Real.sin φ * c.1 + Real.cos φ * c.2 + (p1.2 + p2.2) / 2
  let θ1 := atan2 ((l.2 - c.2) / r.2) ((l.1 - c.1) / r.1) * 180 / Real.pi
  let θ2 := atan2 ((-l.2 - c.2) / r.2) ((-l.1 - c.1) / r.1) * 180 / Real.pi
  (cx, cy, θ1, θ2)

/-- Modelled from the spec (section 4.3(b)): `Converter::compute_arc_center`
fails with an `ArcGeometryError` only when a radius is exactly zero, and
otherwise returns `Ok((cx, cy, start_angle_deg, end_angle_deg))` (the shape
destructured by main.rs line 702). -/
noncomputable def compute_arc_center (p1 p2 : ℝ × ℝ) (radii : ℝ × ℝ)
    (x_rotation : ℝ) (large_arc sweep : Bool) :
    Except ArcError (ℝ × ℝ × ℝ × ℝ) :=
  if radii.1 = 0 ∨ radii.2 = 0 then Except.error ArcError.zeroRadius
  else Except.ok (arc_center_angles p1 p2 radii x_rotation large_arc sweep)

/-- Forward arc reconstruction (spec section 4.3, forward direction): the
point of the axis-rotated ellipse with center `c`, radii `r` and x-axis
rotation `x_rotation` at eccentric angle `θdeg` (degrees). -/
noncomputable def ellipse_point (c : ℝ × ℝ) (r : ℝ × ℝ)
    (x_rotation θdeg : ℝ) : ℝ × ℝ :=
  let φ := toRadians x_rotation
  let θ := toRadians θdeg
  (c.1 + r.1 * Real.cos θ * Real.cos φ - r.2 * Real.sin θ * Real.sin φ,
    c.2 + r.1 * Real.cos θ * Real.sin φ + r.2 * Real.sin θ * Real.cos φ)

/-- Cross product of two plane vectors (used to state on which side of the
chord the chosen center lies). -/
def crossProd (u v : ℝ × ℝ) : ℝ :=
  u.1 * v.2 - u.2 * v.1

/-! ## Theorems -/

/-- C3: every symbol primitive (pin, rectangle corners, circle, ellipse, arc
points, polyline/polygon point, path point) with source coordinates
`(src_x, src_y)` and bbox origin `(bx, b_y)` is normalized to
`(src_x - bx, b_y - src_y)`, with Y inverted. -/
theorem c3_symbol_coordinate_normalization (bx b_y x y w h cx cy : ℚ)
    (abx aby acx acy ar aθs aθe : ℝ) :
    pin_target_pos bx b_y x y = (x - bx, b_y - y) ∧
    rect_target_corners bx b_y x y w h =
      ((x - bx, b_y - y), ((x + w) - bx, b_y - (y + h))) ∧
    circle_target_center bx b_y cx cy = (cx - bx, b_y - cy) ∧
    ellipse_target_center bx b_y cx cy = (cx - bx, b_y - cy) ∧
    poly_point_target bx b_y x y = (x - bx, b_y - y) ∧
    path_point_target bx b_y x y = (x - bx, b_y - y) ∧
    symbol_arc_target abx aby acx acy ar aθs aθe =
      ((acx + ar * Real.cos (toRadians aθs) - abx,
          aby - (acy + ar * Real.sin (toRadians aθs))),
        (acx + ar * Real.cos ((toRadians aθs + toRadians aθe) / 2) - abx,
          aby - (acy + ar * Real.sin ((toRadians aθs + toRadians aθe) / 2))),
        (acx + ar * Real.cos (toRadians aθe) - abx,
          aby - (acy + ar * Real.sin (toRadians aθe)))) := by
  refine ⟨?_, rfl, rfl, rfl, rfl, rfl, rfl⟩
  simp only [pin_target_pos, Prod.mk.injEq]
  exact ⟨trivial, by ring⟩

/-- C4 counterexample: with a zero bbox origin the symbol normalizer is not
the identity — a pin at source position `(0, 1)` is emitted at `(0, -1)`. -/
theorem c4_zero_bbox_counterexample :
    pin_target_pos 0 0 0 1 ≠ ((0 : ℚ), (1 : ℚ)) := by
  simp only [pin_target_pos, Prod.mk.injEq]
  norm_num

/-- C4 (amended): under a zero bbox origin the footprint normalizer is the
identity, while the symbol normalizer is the identity on x but negates y
(identity only for `src_y = 0`). -/
theorem c4_zero_bbox_behavior (x y : ℚ) :
    pad_target_pos 0 0 x y = (x, y) ∧
    pin_target_pos 0 0 x y = (x, -y) ∧
    circle_target_center 0 0 x y = (x, -y) ∧
    poly_point_target 0 0 x y = (x, -y) ∧
    path_point_target 0 0 x y = (x, -y) := by
  refine ⟨?_, ?_, ?_, ?_, ?_⟩ <;>
    simp only [pad_target_pos, pin_target_pos, circle_target_center,
      poly_point_target, path_point_target, Prod.mk.injEq] <;>
    constructor <;> ring

/-- C6: the first rectangle parsed for a symbol is exported with
`fill = true` regardless of its source flag, and every later rectangle keeps
its own fill flag. -/
theorem c6_first_rectangle_forced_filled (bx b_y : ℚ)
    (rects : List EeRectangle) (i : ℕ) :
    ((convert_symbol_rectangles bx b_y rects)[i]?).map KiRectangle.fill =
      (rects[i]?).map fun r => if i = 0 then true else r.fill := by
  simp only [convert_symbol_rectangles, List.getElem?_map, List.getElem?_enum]
  cases rects[i]? <;> simp

/-- C7: a through-hole pad with hole radius `r` and hole length `L` gets a
slot drill, oriented vertically (dimensions `(2r, L)`) exactly when
`height - 2·max(r, L/2) > width - 2·max(r, L/2)` and horizontally
(dimensions `(L, 2r)`) otherwise; a hole radius alone gives a circular drill
of diameter `2r`; no hole radius gives no drill and a surface-mount
classification. -/
theorem c7_pad_drill_policy (r L w h : ℚ) (hl : Option ℚ) :
    pad_drill (some r) (some L) w h =
      (if h - 2 * max r (L / 2) > w - 2 * max r (L / 2) then
        some { diameter := r * 2, width := some L, offset_x := 0, offset_y := 0 }
      else
        some { diameter := L, width := some (r * 2), offset_x := 0, offset_y := 0 }) ∧
    pad_drill (some r) none w h =
      some { diameter := r * 2, width := none, offset_x := 0, offset_y := 0 } ∧
    pad_drill none hl w h = none ∧
    pad_type_of (some r) = PadType.ThroughHole ∧
    pad_type_of none = PadType.Smd := by
  have hM : max (r * 2) L = 2 * max r (L / 2) := by
    have h2 : max r (L / 2) * 2 = max (r * 2) (L / 2 * 2) :=
      max_mul_of_nonneg r (L / 2) (by norm_num)
    have hL : L / 2 * 2 = L := by ring
    rw [hL] at h2
    rw [← h2, mul_comm]
  refine ⟨?_, rfl, rfl, rfl, rfl⟩
  simp only [pad_drill, hM]

/-- C10: the exported pad rotation equals the source rotation `r` when
`r ≤ 180` and `r - 360` when `r > 180`; consequently a source rotation in
`[0, 360)` is exported into `(-180, 180]`. -/
theorem c10_angle_to_ki_range (r : ℚ) (h0 : 0 ≤ r) (h1 : r < 360) :
    angle_to_ki r = (if r ≤ 180 then r else r - 360) ∧
    -180 < angle_to_ki r ∧ angle_to_ki r ≤ 180 := by
  unfold angle_to_ki
  split_ifs with ha hb hb
  · exfalso; linarith
  · exact ⟨by ring, by constructor <;> linarith⟩
  · exact ⟨rfl, by constructor <;> linarith⟩
  · exfalso; linarith

/-- C10 witness: evaluation at a source rotation of 270 degrees. -/
theorem c10_angle_to_ki_range_witness :
    angle_to_ki 270 = (if (270 : ℚ) ≤ 180 then 270 else 270 - 360) ∧
    -180 < angle_to_ki 270 ∧ angle_to_ki 270 ≤ 180 :=
  c10_angle_to_ki_range 270 (by norm_num) (by norm_num)

/-- C2: the footprint-arc midpoint angle is the arithmetic mean of the start
and end angles, shifted by 180 degrees exactly when the sign of
`end - start` disagrees with the sweep flag (positive difference with sweep
false, or negative difference with sweep true). -/
theorem c2_mid_angle_heuristic (s e : ℝ) (sweep : Bool) :
    arc_mid_angle s e sweep =
      (toRadians s + toRadians e) / 2 +
        (if (sweep = false ∧ s < e) ∨ (sweep = true ∧ e < s) then
          toRadians 180 else 0) := by
  have hpos : (0 : ℝ) < Real.pi / 180 := by positivity
  have hdiff : ∀ a b : ℝ, toRadians a - toRadians b = (a - b) * (Real.pi / 180) := by
    intro a b; unfold toRadians; ring
  have hlt : ∀ a b : ℝ, (toRadians a - toRadians b < 0) ↔ a < b := by
    intro a b
    rw [hdiff, ← neg_pos, ← neg_mul]
    constructor
    · intro hm
      nlinarith
    · intro hab
      have : 0 < -(a - b) := by linarith
      positivity
  have h180 : toRadians 180 = Real.pi := by
    unfold toRadians
    field_simp
  have hiff : ((sweep = true ∧ toRadians e - toRadians s < 0) ∨
      (sweep = false ∧ toRadians e - toRadians s > 0)) ↔
      ((sweep = false ∧ s < e) ∨ (sweep = true ∧ e < s)) := by
    rw [hlt e s]
    have h2 : toRadians e - toRadians s > 0 ↔ s < e := by
      rw [gt_iff_lt, ← neg_neg (toRadians e - toRadians s), neg_pos, neg_sub]
      exact hlt s e
    rw [h2]
    tauto
  unfold arc_mid_angle
  rw [if_congr hiff rfl rfl]
  split_ifs with hc
  · rw [h180]
  · ring

/-- C5 counterexample: under a zero bbox origin the tokenized path
`"M 0,0 L 10,0 L 10,10 Z"` does not yield the claimed sequence
`[(0,0), (10,0), (10,10), (0,0)]` — the symbol normalizer inverts Y, so the
third point comes out as `(10, -10)`. -/
theorem c5_path_example_counterexample :
    ee_path_points 0 0 ("M 0,0 L 10,0 L 10,10 Z".toList) ≠
      [(0, 0), (10, 0), (10, 10), (0, 0)] := by
  simp +decide [ee_path_points, splitWs, splitWsAux, path_tokens_to_points,
    path_step, splitOnceChar, parseQ, parseUnsigned, parseDigits,
    digitsToNatAux, charDigit, path_point_target]

/-- C5 (amended): tokenizing `"M 0,0 L 10,0 L 10,10 Z"` under a zero bbox
origin yields exactly `[(0,0), (10,0), (10,-10), (0,0)]` (Y inverted); `M`/`L`
consume one coordinate pair each, `Z` appends a duplicate of the first
recorded point, and an unrecognized token (for example `Q`) is ignored. -/
theorem c5_path_example (bx b_y : ℚ) (ts : List (List Char)) (p : ℚ × ℚ)
    (pts : List (ℚ × ℚ)) :
    ee_path_points 0 0 ("M 0,0 L 10,0 L 10,10 Z".toList) =
      [(0, 0), (10, 0), (10, -10), (0, 0)] ∧
    path_step bx b_y ("Z".toList) ts (p :: pts) = (ts, (p :: pts) ++ [p]) ∧
    path_step bx b_y ("Q".toList) ts pts = (ts, pts) := by
  refine ⟨?_, ?_, ?_⟩
  · simp +decide [ee_path_points, splitWs, splitWsAux, path_tokens_to_points,
      path_step, splitOnceChar, parseQ, parseUnsigned, parseDigits,
      digitsToNatAux, charDigit, path_point_target]
  · rfl
  · rfl

/-- Processing a prefix of successful conversions only accumulates successes
and the attempt trace. -/
theorem process_sequential_ok_front {α ε : Type} (f : α → Except ε Unit)
    (cont : Bool) (pre : List α) (hpre : ∀ x ∈ pre, isOkE (f x) = true)
    (l : List α) (st : BatchState α) :
    process_sequential f cont (pre ++ l) st =
      process_sequential f cont l
        { st with attempted := st.attempted ++ pre,
                  success := st.success + pre.length } := by
  induction pre generalizing st with
  | nil => simp
  | cons a t ih =>
    have ha : isOkE (f a) = true := hpre a (by simp)
    cases hfa : f a with
    | ok u =>
      simp only [List.cons_append, process_sequential, hfa, List.append_eq]
      rw [ih (fun x hx => hpre x (by simp [hx]))]
      simp [List.append_assoc, Nat.add_assoc, Nat.add_comm, Nat.add_left_comm]
    | error e => rw [hfa] at ha; simp [isOkE] at ha

/-- With `continue_on_error = true` every identifier is attempted and the
counters aggregate the per-identifier outcomes. -/
theorem process_sequential_cont_true {α ε : Type} (f : α → Except ε Unit)
    (ids : List α) (st : BatchState α) :
    process_sequential f true ids st =
      ({ attempted := st.attempted ++ ids,
         success := st.success + (ids.filter fun x => isOkE (f x)).length,
         failed := st.failed + (ids.filter fun x => !(isOkE (f x))).length,
         failed_ids := st.failed_ids ++ ids.filter fun x => !(isOkE (f x)) },
        none) := by
  induction ids generalizing st with
  | nil => cases st; simp [process_sequential]
  | cons a t ih =>
    cases hfa : f a with
    | ok u =>
      simp only [process_sequential, hfa]
      rw [ih]
      simp +arith [List.filter_cons, hfa, isOkE, List.append_assoc]
    | error e =>
      simp only [process_sequential, hfa, if_true]
      rw [ih]
      simp +arith [List.filter_cons, hfa, isOkE, List.append_assoc]

/-- C8: in sequential mode, `continue_on_error = false` makes the first
failing component abort the run by returning its error, with only the
identifiers up to and including the failing one attempted (and the failure
already counted and recorded); `continue_on_error = true` attempts every
identifier, counting every success and failure and appending each failing
identifier to the failure list. -/
theorem c8_sequential_error_policy {α ε : Type} (f : α → Except ε Unit) :
    (∀ (pre : List α) (bad : α) (post : List α) (e : ε),
        (∀ x ∈ pre, isOkE (f x) = true) → f bad = Except.error e →
        process_sequential f false (pre ++ bad :: post) initBatch =
          ({ attempted := pre ++ [bad], success := pre.length, failed := 1,
             failed_ids := [bad] }, some e)) ∧
    (∀ ids : List α,
        process_sequential f true ids initBatch =
          ({ attempted := ids,
             success := (ids.filter fun x => isOkE (f x)).length,
             failed := (ids.filter fun x => !(isOkE (f x))).length,
             failed_ids := ids.filter fun x => !(isOkE (f x)) }, none)) := by
  constructor
  · intro pre bad post e hpre hbad
    rw [process_sequential_ok_front f false pre hpre]
    simp [process_sequential, hbad, initBatch]
  · intro ids
    rw [process_sequential_cont_true]
    simp [initBatch]

/-- C8 witness: a run over `[0, 1, 2, 3]` where only identifier 2 fails. -/
theorem c8_sequential_error_policy_witness :
    process_sequential
        (fun n : ℕ => if n = 2 then Except.error (7 : ℕ) else Except.ok ())
        false ([0, 1] ++ 2 :: [3]) initBatch =
      ({ attempted := [0, 1] ++ [2], success := [0, 1].length, failed := 1,
         failed_ids := [2] }, some 7) :=
  (c8_sequential_error_policy
      (fun n : ℕ => if n = 2 then Except.error (7 : ℕ) else Except.ok ())).1
    [0, 1] 2 [3] 7 (by decide) rfl

/-- Lemma: `splitNl` never returns the empty list. -/
theorem splitNl_ne_nil (s : List Char) : splitNl s ≠ [] := by
  induction s with
  | nil => simp [splitNl]
  | cons c cs ih =>
    cases hsp : splitNl cs with
    | nil => exact absurd hsp ih
    | cons h t =>
      simp only [splitNl, hsp]
      split_ifs <;> simp

/-- Splitting after a leading newline. -/
theorem splitNl_cons_newline (s : List Char) :
    splitNl ('\n' :: s) = [] :: splitNl s := by
  cases hsp : splitNl s with
  | nil => exact absurd hsp (splitNl_ne_nil s)
  | cons h t => simp [splitNl, hsp]

/-- Splitting after a leading non-newline character. -/
theorem splitNl_cons_other (c : Char) (s : List Char) (h : List Char)
    (t : List (List Char)) (hsp : splitNl s = h :: t) (hc : c ≠ '\n') :
    splitNl (c :: s) = (c :: h) :: t := by
  simp [splitNl, hsp, hc]

/-- Splitting of a newline-terminated line followed by more content. -/
theorem splitNl_append (l s : List Char) (hl : '\n' ∉ l) :
    splitNl (l ++ '\n' :: s) = l :: splitNl s := by
  induction l with
  | nil => simpa using splitNl_cons_newline s
  | cons c l ih =>
    have hc : c ≠ '\n' := by intro hcc; exact hl (by simp [hcc])
    have hrec := ih (by intro hm; exact hl (by simp [hm]))
    have hstep := splitNl_cons_other c (l ++ '\n' :: s) l (splitNl s) hrec hc
    simpa using hstep

/-- Lemma: `writeLines` unfolds one line at a time. -/
theorem writeLines_cons (l : List Char) (ls : List (List Char)) :
    writeLines (l :: ls) = l ++ '\n' :: writeLines ls := by
  simp [writeLines]

/-- Splitting a `writeLines` image recovers the lines plus one trailing
empty segment. -/
theorem splitNl_writeLines (ls : List (List Char))
    (h : ∀ l ∈ ls, '\n' ∉ l) :
    splitNl (writeLines ls) = ls ++ [[]] := by
  induction ls with
  | nil => simp [writeLines, splitNl]
  | cons l t ih =>
    rw [writeLines_cons, splitNl_append l (writeLines t) (h l (by simp)),
      ih (fun x hx => h x (by simp [hx]))]
    simp

/-- Lemma: `stripCr` is the identity on lines without a carriage return. -/
theorem stripCr_of_not_mem (l : List Char) (h : '\r' ∉ l) :
    stripCr l = l := by
  unfold stripCr
  split
  · next heq => exact absurd (List.mem_of_mem_getLast? (by rw [heq]; rfl)) h
  · rfl

/-- Rust `lines` inverts `writeln`-serialization for newline- and
carriage-return-free lines. -/
theorem rustLines_writeLines (ls : List (List Char))
    (h : ∀ l ∈ ls, '\n' ∉ l ∧ '\r' ∉ l) :
    rustLines (writeLines ls) = ls := by
  unfold rustLines
  rw [splitNl_writeLines ls (fun l hl => (h l hl).1)]
  have hmap : ls.map stripCr = ls := by
    have := List.map_congr_left
      (fun l (hl : l ∈ ls) => stripCr_of_not_mem l (h l hl).2)
    rw [this]
    simp
  simp [List.getLast?_concat, List.dropLast_concat, hmap]

/-- Value of `parenSum` on an empty line list. -/
theorem parenSum_nil : parenSum [] = 0 := by
  simp [parenSum]

/-- Value of `parenSum` on a line-list cons. -/
theorem parenSum_cons (l : List Char) (ls : List (List Char)) :
    parenSum (l :: ls) = parenDelta l + parenSum ls := by
  simp [parenSum]

/-- Outside the target span, the line loop copies every non-marker line to
the output unchanged. -/
theorem remove_foldl_untargeted (lcsc : List Char) (ls : List (List Char))
    (hm : ∀ l ∈ ls, markerLine lcsc l = false) (st : RemoveState)
    (hst : st.in_target = false) :
    ls.foldl (remove_step lcsc) st = { st with out := st.out ++ ls } := by
  induction ls generalizing st with
  | nil => cases st; simp
  | cons a t ih =>
    have hma : markerLine lcsc a = false := hm a (by simp)
    simp only [List.foldl_cons]
    have hstep : remove_step lcsc st a = { st with out := st.out ++ [a] } := by
      simp [remove_step, hma, hst]
    rw [hstep, ih (fun x hx => hm x (by simp [hx]))
      { st with out := st.out ++ [a] } hst]
    simp

/-- Inside the target span, while the running depth stays nonzero, the line
loop only updates the depth and drops every line. -/
theorem remove_foldl_in_target (lcsc : List Char) (mid : List (List Char))
    (hm : ∀ l ∈ mid, markerLine lcsc l = false) :
    ∀ st : RemoveState, st.in_target = true →
      (∀ k, k ≤ mid.length → st.depth + parenSum (mid.take k) ≠ 0) →
      mid.foldl (remove_step lcsc) st =
        { st with depth := st.depth + parenSum mid } := by
  induction mid with
  | nil => intro st _ _; cases st; simp [parenSum_nil]
  | cons a t ih =>
    intro st hst hd
    have hma : markerLine lcsc a = false := hm a (by simp)
    have hd1 : st.depth + parenDelta a ≠ 0 := by
      have := hd 1 (by simp)
      simpa [parenSum_cons, parenSum_nil] using this
    simp only [List.foldl_cons]
    have hstep : remove_step lcsc st a =
        { st with depth := st.depth + parenDelta a } := by
      simp [remove_step, hma, hst, hd1]
    rw [hstep, ih (fun x hx => hm x (by simp [hx]))
      { st with depth := st.depth + parenDelta a } hst ?_]
    · simp [parenSum_cons]
      ring_nf
    · intro k hk
      have := hd (k + 1) (by simpa using hk)
      simpa [List.take_succ_cons, parenSum_cons, add_assoc] using this

/-- C9 counterexample: on a CRLF-terminated container the rewrite is not
byte-for-byte — removing the `(symbol C1 ...)` entry from
`"(a)\r\n(symbol C1\r\n)\r\n"` destroys the carriage return of the unrelated
line `"(a)"`, producing `"(a)\n"` instead of the span-deleted `"(a)\r\n"`. -/
theorem c9_remove_byte_counterexample :
    (remove_component_from_symbol_lib
        ("(a)\r\n(symbol C1\r\n)\r\n".toList) ("C1".toList)).1 =
      "(a)\n".toList ∧
    (remove_component_from_symbol_lib
        ("(a)\r\n(symbol C1\r\n)\r\n".toList) ("C1".toList)).1 ≠
      "(a)\r\n".toList := by
  constructor <;> decide

/-- C9 (amended): when the container is a sequence of LF-terminated lines
free of carriage returns, with exactly one line matching the opening marker,
removal deletes exactly the line span from the marker line through its
bracket-depth-matched closing line, and every other line is reproduced
byte-for-byte (each kept line rewritten with a single trailing `'\n'`). -/
theorem c9_remove_component_line_span (lcsc : List Char)
    (pre mid rest : List (List Char)) (mark close : List Char)
    (hpre : ∀ l ∈ pre, markerLine lcsc l = false)
    (hmark : markerLine lcsc mark = true)
    (hmid : ∀ l ∈ mid, markerLine lcsc l = false)
    (hclose : markerLine lcsc close = false)
    (hrest : ∀ l ∈ rest, markerLine lcsc l = false)
    (hdep : ∀ k, k ≤ mid.length → 1 + parenSum (mid.take k) ≠ 0)
    (hclose0 : 1 + parenSum mid + parenDelta close = 0)
    (hlines : ∀ l ∈ pre ++ mark :: (mid ++ close :: rest),
      '\n' ∉ l ∧ '\r' ∉ l) :
    remove_component_from_symbol_lib
        (writeLines (pre ++ mark :: (mid ++ close :: rest))) lcsc =
      (writeLines (pre ++ rest), true) := by
  unfold remove_component_from_symbol_lib
  rw [rustLines_writeLines _ hlines]
  rw [List.foldl_append]
  rw [remove_foldl_untargeted lcsc pre hpre _ rfl]
  simp only [List.foldl_cons, List.nil_append]
  have hstep1 : remove_step lcsc
      { in_target := false, found := false, depth := 0, out := pre } mark =
      { in_target := true, found := true, depth := 1, out := pre } := by
    simp [remove_step, hmark]
  rw [hstep1, List.foldl_append]
  rw [remove_foldl_in_target lcsc mid hmid
      { in_target := true, found := true, depth := 1, out := pre } rfl
      (by intro k hk; simpa using hdep k hk)]
  simp only [List.foldl_cons]
  have hstep2 : remove_step lcsc
      { in_target := true, found := true, depth := 1 + parenSum mid,
        out := pre } close =
      { in_target := false, found := true, depth := 0, out := pre } := by
    simp [remove_step, hclose, hclose0]
  rw [hstep2]
  rw [remove_foldl_untargeted lcsc rest hrest
      { in_target := false, found := true, depth := 0, out := pre } rfl]
  simp

/-- C9 witness: removing `C1` from the four-line container
`["(a)", "(symbol X_C1", "(pin", "))", "(b)"]` deletes exactly the three-line
span and keeps `"(a)"` and `"(b)"`. -/
theorem c9_remove_component_line_span_witness :
    remove_component_from_symbol_lib
        (writeLines (["(a)".toList] ++ "(symbol X_C1".toList ::
          (["(pin".toList] ++ "))".toList :: ["(b)".toList]))) ("C1".toList) =
      (writeLines (["(a)".toList] ++ ["(b)".toList]), true) :=
  c9_remove_component_line_span ("C1".toList) ["(a)".toList] ["(pin".toList]
    ["(b)".toList] ("(symbol X_C1".toList) ("))".toList)
    (by decide) (by decide) (by decide) (by decide) (by decide) (by decide)
    (by decide) (by decide)

/-- The local-frame rotation preserves the squared norm of the half-chord. -/
theorem arcLocal_normSq (p1 p2 : ℝ × ℝ) (xrot : ℝ) :
    (arcLocal p1 p2 xrot).1 ^ 2 + (arcLocal p1 p2 xrot).2 ^ 2 =
      ((p1.1 - p2.1) / 2) ^ 2 + ((p1.2 - p2.2) / 2) ^ 2 := by
  unfold arcLocal
  simp only
  linear_combination (((p1.1 - p2.1) / 2) ^ 2 + ((p1.2 - p2.2) / 2) ^ 2) *
    Real.sin_sq_add_cos_sq (toRadians xrot)

/-- For distinct endpoints the local-frame coordinates are not both zero. -/
theorem arcLocal_sq_pos (p1 p2 : ℝ × ℝ) (xrot : ℝ) (hne : p1 ≠ p2) :
    0 < (arcLocal p1 p2 xrot).1 ^ 2 + (arcLocal p1 p2 xrot).2 ^ 2 := by
  rw [arcLocal_normSq]
  have hd : p1.1 ≠ p2.1 ∨ p1.2 ≠ p2.2 := by
    by_contra h
    push_neg at h
    exact hne (Prod.ext h.1 h.2)
  rcases hd with h | h
  · have h1 : (p1.1 - p2.1) / 2 ≠ 0 :=
      div_ne_zero (sub_ne_zero.mpr h) two_ne_zero
    have := pow_two_pos_of_ne_zero h1
    nlinarith [sq_nonneg ((p1.2 - p2.2) / 2)]
  · have h1 : (p1.2 - p2.2) / 2 ≠ 0 :=
      div_ne_zero (sub_ne_zero.mpr h) two_ne_zero
    have := pow_two_pos_of_ne_zero h1
    nlinarith [sq_nonneg ((p1.1 - p2.1) / 2)]

/-- The feasibility measure is positive whenever the endpoints are distinct
and the radii nonzero. -/
theorem arcLambda_pos (p1 p2 : ℝ × ℝ) (R : ℝ × ℝ) (xrot : ℝ)
    (hne : p1 ≠ p2) (h1 : R.1 ≠ 0) (h2 : R.2 ≠ 0) :
    0 < arcLambda p1 p2 R xrot := by
  unfold arcLambda
  have hpos := arcLocal_sq_pos p1 p2 xrot hne
  have hx : (arcLocal p1 p2 xrot).1 ≠ 0 ∨ (arcLocal p1 p2 xrot).2 ≠ 0 := by
    by_contra h
    push_neg at h
    rw [h.1, h.2] at hpos
    norm_num at hpos
  have hR1 : 0 < R.1 ^ 2 := pow_two_pos_of_ne_zero h1
  have hR2 : 0 < R.2 ^ 2 := pow_two_pos_of_ne_zero h2
  rcases hx with h | h
  · have ht1 : 0 < (arcLocal p1 p2 xrot).1 ^ 2 / R.1 ^ 2 :=
      div_pos (pow_two_pos_of_ne_zero h) hR1
    have ht2 : 0 ≤ (arcLocal p1 p2 xrot).2 ^ 2 / R.2 ^ 2 :=
      div_nonneg (sq_nonneg _) (le_of_lt hR2)
    linarith
  · have ht1 : 0 ≤ (arcLocal p1 p2 xrot).1 ^ 2 / R.1 ^ 2 :=
      div_nonneg (sq_nonneg _) (le_of_lt hR1)
    have ht2 : 0 < (arcLocal p1 p2 xrot).2 ^ 2 / R.2 ^ 2 :=
      div_pos (pow_two_pos_of_ne_zero h) hR2
    linarith

/-- The effective radii remain positive. -/
theorem effective_radii_pos (p1 p2 : ℝ × ℝ) (radii : ℝ × ℝ) (xrot : ℝ)
    (hrx : 0 < radii.1) (hry : 0 < radii.2) :
    0 < (effective_radii p1 p2 radii xrot).1 ∧
    0 < (effective_radii p1 p2 radii xrot).2 := by
  unfold effective_radii
  dsimp only
  split_ifs with hΛ
  · have h0 : (0 : ℝ) < arcLambda p1 p2 radii xrot := by linarith
    have hs : 0 < Real.sqrt (arcLambda p1 p2 radii xrot) :=
      Real.sqrt_pos.mpr h0
    exact ⟨mul_pos hrx hs, mul_pos hry hs⟩
  · exact ⟨hrx, hry⟩

/-- Scaling both radii by a nonzero factor divides the feasibility measure
by its square. -/
theorem arcLambda_scale (p1 p2 : ℝ × ℝ) (R : ℝ × ℝ) (xrot c : ℝ)
    (hc : c ≠ 0) (h1 : R.1 ≠ 0) (h2 : R.2 ≠ 0) :
    arcLambda p1 p2 (R.1 * c, R.2 * c) xrot =
      arcLambda p1 p2 R xrot / c ^ 2 := by
  unfold arcLambda
  dsimp only
  field_simp
  ring

/-- After minimal uniform scaling the feasibility measure is at most one and
still positive. -/
theorem arcLambda_effective (p1 p2 : ℝ × ℝ) (radii : ℝ × ℝ) (xrot : ℝ)
    (hrx : 0 < radii.1) (hry : 0 < radii.2) (hne : p1 ≠ p2) :
    arcLambda p1 p2 (effective_radii p1 p2 radii xrot) xrot ≤ 1 ∧
    0 < arcLambda p1 p2 (effective_radii p1 p2 radii xrot) xrot := by
  have hre := effective_radii_pos p1 p2 radii xrot hrx hry
  constructor
  · unfold effective_radii
    dsimp only
    split_ifs with hΛ
    · have h0 : (0 : ℝ) < arcLambda p1 p2 radii xrot := by linarith
      have hsqrt0 : Real.sqrt (arcLambda p1 p2 radii xrot) ≠ 0 :=
        ne_of_gt (Real.sqrt_pos.mpr h0)
      rw [arcLambda_scale p1 p2 radii xrot _ hsqrt0 (ne_of_gt hrx) (ne_of_gt hry),
        Real.sq_sqrt (le_of_lt h0), div_self (ne_of_gt h0)]
    · push_neg at hΛ
      exact hΛ
  · exact arcLambda_pos p1 p2 _ xrot hne (ne_of_gt hre.1) (ne_of_gt hre.2)

/-- Degrees-to-radians conversion inverts the radians-to-degrees conversion
performed on the solver's angles. -/
theorem toRadians_deg (θ : ℝ) : toRadians (θ * 180 / Real.pi) = θ := by
  unfold toRadians
  field_simp

/-- Cosine and sine of `atan2` on a unit vector recover its components. -/
theorem atan2_cos_sin (a b : ℝ) (h : a ^ 2 + b ^ 2 = 1) :
    Real.cos (atan2 b a) = a ∧ Real.sin (atan2 b a) = b := by
  have hz : (a : ℂ) + (b : ℂ) * Complex.I ≠ 0 := by
    intro h0
    have ha : a = 0 := by
      have := congrArg Complex.re h0
      simpa using this
    have hb : b = 0 := by
      have := congrArg Complex.im h0
      simpa using this
    rw [ha, hb] at h
    norm_num at h
  have habs : Complex.abs ((a : ℂ) + (b : ℂ) * Complex.I) = 1 := by
    have h1 : Complex.abs ((a : ℂ) + (b : ℂ) * Complex.I) ^ 2 = 1 := by
      rw [Complex.sq_abs, Complex.normSq_add_mul_I, h]
    have h2 := Complex.abs.nonneg ((a : ℂ) + (b : ℂ) * Complex.I)
    nlinarith
  constructor
  · rw [atan2, Complex.cos_arg hz, habs]
    simp
  · rw [atan2, Complex.sin_arg, habs]
    simp

/-- The squared center coefficient in terms of the effective feasibility
measure `s`: `co² = (1 - s)/s`. -/
theorem arcCo_sq (p1 p2 : ℝ × ℝ) (radii : ℝ × ℝ) (xrot : ℝ)
    (la sw : Bool) (hrx : 0 < radii.1) (hry : 0 < radii.2) (hne : p1 ≠ p2) :
    arcCo p1 p2 radii xrot la sw ^ 2 =
      (1 - arcLambda p1 p2 (effective_radii p1 p2 radii xrot) xrot) /
        arcLambda p1 p2 (effective_radii p1 p2 radii xrot) xrot := by
  have hre := effective_radii_pos p1 p2 radii xrot hrx hry
  have hs := arcLambda_effective p1 p2 radii xrot hrx hry hne
  have hr1 : (effective_radii p1 p2 radii xrot).1 ≠ 0 := ne_of_gt hre.1
  have hr2 : (effective_radii p1 p2 radii xrot).2 ≠ 0 := ne_of_gt hre.2
  unfold arcCo
  dsimp only
  have hden : (effective_radii p1 p2 radii xrot).1 ^ 2 *
        (arcLocal p1 p2 xrot).2 ^ 2 +
      (effective_radii p1 p2 radii xrot).2 ^ 2 *
        (arcLocal p1 p2 xrot).1 ^ 2 =
      (effective_radii p1 p2 radii xrot).1 ^ 2 *
        (effective_radii p1 p2 radii xrot).2 ^ 2 *
        arcLambda p1 p2 (effective_radii p1 p2 radii xrot) xrot := by
    unfold arcLambda
    dsimp only
    field_simp
    ring
  have hnum : (effective_radii p1 p2 radii xrot).1 ^ 2 *
        (effective_radii p1 p2 radii xrot).2 ^ 2 -
      (effective_radii p1 p2 radii xrot).1 ^ 2 *
        (arcLocal p1 p2 xrot).2 ^ 2 -
      (effective_radii p1 p2 radii xrot).2 ^ 2 *
        (arcLocal p1 p2 xrot).1 ^ 2 =
      (effective_radii p1 p2 radii xrot).1 ^ 2 *
        (effective_radii p1 p2 radii xrot).2 ^ 2 *
        (1 - arcLambda p1 p2 (effective_radii p1 p2 radii xrot) xrot) := by
    rw [mul_sub, mul_one, ← hden]
    ring
  rw [hnum, hden, mul_pow, mul_div_mul_left _ _ (by positivity)]
  have hquot : 0 ≤ (1 - arcLambda p1 p2 (effective_radii p1 p2 radii xrot) xrot) /
      arcLambda p1 p2 (effective_radii p1 p2 radii xrot) xrot :=
    div_nonneg (by linarith [hs.1]) (le_of_lt hs.2)
  have hsign : (if la ≠ sw then (1 : ℝ) else -1) ^ 2 = 1 := by
    split_ifs <;> norm_num
  rw [hsign, one_mul, Real.sq_sqrt hquot]

/-- Algebraic core of the endpoint round trip (start point). -/
theorem arc_unit_key (P Q K : ℝ)
    (hK : K ^ 2 * (P ^ 2 + Q ^ 2) = 1 - (P ^ 2 + Q ^ 2)) :
    (P - K * Q) ^ 2 + (Q + K * P) ^ 2 = 1 := by
  linear_combination hK

/-- Algebraic core of the endpoint round trip (end point). -/
theorem arc_unit_key_neg (P Q K : ℝ)
    (hK : K ^ 2 * (P ^ 2 + Q ^ 2) = 1 - (P ^ 2 + Q ^ 2)) :
    (-P - K * Q) ^ 2 + (-Q + K * P) ^ 2 = 1 := by
  linear_combination hK

/-- The center coefficient satisfies `co² · s = 1 - s`. -/
theorem arcCo_mul (p1 p2 : ℝ × ℝ) (radii : ℝ × ℝ) (xrot : ℝ)
    (la sw : Bool) (hrx : 0 < radii.1) (hry : 0 < radii.2) (hne : p1 ≠ p2) :
    arcCo p1 p2 radii xrot la sw ^ 2 *
        arcLambda p1 p2 (effective_radii p1 p2 radii xrot) xrot =
      1 - arcLambda p1 p2 (effective_radii p1 p2 radii xrot) xrot := by
  have hs := arcLambda_effective p1 p2 radii xrot hrx hry hne
  rw [arcCo_sq p1 p2 radii xrot la sw hrx hry hne,
    div_mul_cancel₀ _ (ne_of_gt hs.2)]

/-- The start-angle direction vector is a unit vector. -/
theorem arc_start_unit (p1 p2 : ℝ × ℝ) (radii : ℝ × ℝ) (xrot : ℝ)
    (la sw : Bool) (hrx : 0 < radii.1) (hry : 0 < radii.2) (hne : p1 ≠ p2) :
    (((arcLocal p1 p2 xrot).1 -
        (arcCenterLocal p1 p2 radii xrot la sw).1) /
          (effective_radii p1 p2 radii xrot).1) ^ 2 +
    (((arcLocal p1 p2 xrot).2 -
        (arcCenterLocal p1 p2 radii xrot la sw).2) /
          (effective_radii p1 p2 radii xrot).2) ^ 2 = 1 := by
  have hre := effective_radii_pos p1 p2 radii xrot hrx hry
  have hr1 : (effective_radii p1 p2 radii xrot).1 ≠ 0 := ne_of_gt hre.1
  have hr2 : (effective_radii p1 p2 radii xrot).2 ≠ 0 := ne_of_gt hre.2
  have hc1 : (arcCenterLocal p1 p2 radii xrot la sw).1 =
      arcCo p1 p2 radii xrot la sw * (effective_radii p1 p2 radii xrot).1 *
        (arcLocal p1 p2 xrot).2 / (effective_radii p1 p2 radii xrot).2 := rfl
  have hc2 : (arcCenterLocal p1 p2 radii xrot la sw).2 =
      -(arcCo p1 p2 radii xrot la sw * (effective_radii p1 p2 radii xrot).2 *
        (arcLocal p1 p2 xrot).1 / (effective_radii p1 p2 radii xrot).1) := rfl
  have hP : ((arcLocal p1 p2 xrot).1 -
      (arcCenterLocal p1 p2 radii xrot la sw).1) /
        (effective_radii p1 p2 radii xrot).1 =
      (arcLocal p1 p2 xrot).1 / (effective_radii p1 p2 radii xrot).1 -
        arcCo p1 p2 radii xrot la sw *
          ((arcLocal p1 p2 xrot).2 / (effective_radii p1 p2 radii xrot).2) := by
    rw [hc1]
    field_simp
    ring
  have hQ : ((arcLocal p1 p2 xrot).2 -
      (arcCenterLocal p1 p2 radii xrot la sw).2) /
        (effective_radii p1 p2 radii xrot).2 =
      (arcLocal p1 p2 xrot).2 / (effective_radii p1 p2 radii xrot).2 +
        arcCo p1 p2 radii xrot la sw *
          ((arcLocal p1 p2 xrot).1 / (effective_radii p1 p2 radii xrot).1) := by
    rw [hc2]
    field_simp
    ring
  have hPQ : ((arcLocal p1 p2 xrot).1 /
        (effective_radii p1 p2 radii xrot).1) ^ 2 +
      ((arcLocal p1 p2 xrot).2 / (effective_radii p1 p2 radii xrot).2) ^ 2 =
      arcLambda p1 p2 (effective_radii p1 p2 radii xrot) xrot := by
    unfold arcLambda
    dsimp only
    rw [div_pow, div_pow]
  rw [hP, hQ]
  apply arc_unit_key
  rw [hPQ]
  exact arcCo_mul p1 p2 radii xrot la sw hrx hry hne

/-- The end-angle direction vector is a unit vector. -/
theorem arc_end_unit (p1 p2 : ℝ × ℝ) (radii : ℝ × ℝ) (xrot : ℝ)
    (la sw : Bool) (hrx : 0 < radii.1) (hry : 0 < radii.2) (hne : p1 ≠ p2) :
    ((-(arcLocal p1 p2 xrot).1 -
        (arcCenterLocal p1 p2 radii xrot la sw).1) /
          (effective_radii p1 p2 radii xrot).1) ^ 2 +
    ((-(arcLocal p1 p2 xrot).2 -
        (arcCenterLocal p1 p2 radii xrot la sw).2) /
          (effective_radii p1 p2 radii xrot).2) ^ 2 = 1 := by
  have hre := effective_radii_pos p1 p2 radii xrot hrx hry
  have hr1 : (effective_radii p1 p2 radii xrot).1 ≠ 0 := ne_of_gt hre.1
  have hr2 : (effective_radii p1 p2 radii xrot).2 ≠ 0 := ne_of_gt hre.2
  have hc1 : (arcCenterLocal p1 p2 radii xrot la sw).1 =
      arcCo p1 p2 radii xrot la sw * (effective_radii p1 p2 radii xrot).1 *
        (arcLocal p1 p2 xrot).2 / (effective_radii p1 p2 radii xrot).2 := rfl
  have hc2 : (arcCenterLocal p1 p2 radii xrot la sw).2 =
      -(arcCo p1 p2 radii xrot la sw * (effective_radii p1 p2 radii xrot).2 *
        (arcLocal p1 p2 xrot).1 / (effective_radii p1 p2 radii xrot).1) := rfl
  have hP : (-(arcLocal p1 p2 xrot).1 -
      (arcCenterLocal p1 p2 radii xrot la sw).1) /
        (effective_radii p1 p2 radii xrot).1 =
      -((arcLocal p1 p2 xrot).1 / (effective_radii p1 p2 radii xrot).1) -
        arcCo p1 p2 radii xrot la sw *
          ((arcLocal p1 p2 xrot).2 / (effective_radii p1 p2 radii xrot).2) := by
    rw [hc1]
    field_simp
    ring
  have hQ : (-(arcLocal p1 p2 xrot).2 -
      (arcCenterLocal p1 p2 radii xrot la sw).2) /
        (effective_radii p1 p2 radii xrot).2 =
      -((arcLocal p1 p2 xrot).2 / (effective_radii p1 p2 radii xrot).2) +
        arcCo p1 p2 radii xrot la sw *
          ((arcLocal p1 p2 xrot).1 / (effective_radii p1 p2 radii xrot).1) := by
    rw [hc2]
    field_simp
    ring
  have hPQ : ((arcLocal p1 p2 xrot).1 /
        (effective_radii p1 p2 radii xrot).1) ^ 2 +
      ((arcLocal p1 p2 xrot).2 / (effective_radii p1 p2 radii xrot).2) ^ 2 =
      arcLambda p1 p2 (effective_radii p1 p2 radii xrot) xrot := by
    unfold arcLambda
    dsimp only
    rw [div_pow, div_pow]
  rw [hP, hQ]
  apply arc_unit_key_neg
  rw [hPQ]
  exact arcCo_mul p1 p2 radii xrot la sw hrx hry hne

/-- Undoing the local-frame rotation at the start point, x coordinate. -/
theorem rotate_back_start_fst (p1 p2 : ℝ × ℝ) (xrot w1 w2 : ℝ) :
    Real.cos (toRadians xrot) * w1 - Real.sin (toRadians xrot) * w2 +
      (p1.1 + p2.1) / 2 +
      ((arcLocal p1 p2 xrot).1 - w1) * Real.cos (toRadians xrot) -
      ((arcLocal p1 p2 xrot).2 - w2) * Real.sin (toRadians xrot) = p1.1 := by
  unfold arcLocal
  dsimp only
  linear_combination ((p1.1 - p2.1) / 2) *
    Real.sin_sq_add_cos_sq (toRadians xrot)

/-- Undoing the local-frame rotation at the start point, y coordinate. -/
theorem rotate_back_start_snd (p1 p2 : ℝ × ℝ) (xrot w1 w2 : ℝ) :
    Real.sin (toRadians xrot) * w1 + Real.cos (toRadians xrot) * w2 +
      (p1.2 + p2.2) / 2 +
      ((arcLocal p1 p2 xrot).1 - w1) * Real.sin (toRadians xrot) +
      ((arcLocal p1 p2 xrot).2 - w2) * Real.cos (toRadians xrot) = p1.2 := by
  unfold arcLocal
  dsimp only
  linear_combination ((p1.2 - p2.2) / 2) *
    Real.sin_sq_add_cos_sq (toRadians xrot)

/-- Undoing the local-frame rotation at the end point, x coordinate. -/
theorem rotate_back_end_fst (p1 p2 : ℝ × ℝ) (xrot w1 w2 : ℝ) :
    Real.cos (toRadians xrot) * w1 - Real.sin (toRadians xrot) * w2 +
      (p1.1 + p2.1) / 2 +
      (-(arcLocal p1 p2 xrot).1 - w1) * Real.cos (toRadians xrot) -
      (-(arcLocal p1 p2 xrot).2 - w2) * Real.sin (toRadians xrot) = p2.1 := by
  unfold arcLocal
  dsimp only
  linear_combination ((p2.1 - p1.1) / 2) *
    Real.sin_sq_add_cos_sq (toRadians xrot)

/-- Undoing the local-frame rotation at the end point, y coordinate. -/
theorem rotate_back_end_snd (p1 p2 : ℝ × ℝ) (xrot w1 w2 : ℝ) :
    Real.sin (toRadians xrot) * w1 + Real.cos (toRadians xrot) * w2 +
      (p1.2 + p2.2) / 2 +
      (-(arcLocal p1 p2 xrot).1 - w1) * Real.sin (toRadians xrot) +
      (-(arcLocal p1 p2 xrot).2 - w2) * Real.cos (toRadians xrot) = p2.2 := by
  unfold arcLocal
  dsimp only
  linear_combination ((p2.2 - p1.2) / 2) *
    Real.sin_sq_add_cos_sq (toRadians xrot)

/-- Forward reconstruction at the computed start angle recovers the start
point. -/
theorem arc_roundtrip_start (p1 p2 : ℝ × ℝ) (radii : ℝ × ℝ) (xrot : ℝ)
    (la sw : Bool) (hrx : 0 < radii.1) (hry : 0 < radii.2) (hne : p1 ≠ p2) :
    ellipse_point
        ((arc_center_angles p1 p2 radii xrot la sw).1,
          (arc_center_angles p1 p2 radii xrot la sw).2.1)
        (effective_radii p1 p2 radii xrot) xrot
        (arc_center_angles p1 p2 radii xrot la sw).2.2.1 = p1 := by
  have hre := effective_radii_pos p1 p2 radii xrot hrx hry
  have hr1 : (effective_radii p1 p2 radii xrot).1 ≠ 0 := ne_of_gt hre.1
  have hr2 : (effective_radii p1 p2 radii xrot).2 ≠ 0 := ne_of_gt hre.2
  have hθ : (arc_center_angles p1 p2 radii xrot la sw).2.2.1 =
      atan2
        (((arcLocal p1 p2 xrot).2 -
            (arcCenterLocal p1 p2 radii xrot la sw).2) /
          (effective_radii p1 p2 radii xrot).2)
        (((arcLocal p1 p2 xrot).1 -
            (arcCenterLocal p1 p2 radii xrot la sw).1) /
          (effective_radii p1 p2 radii xrot).1) * 180 / Real.pi := rfl
  have hcx : (arc_center_angles p1 p2 radii xrot la sw).1 =
      Real.cos (toRadians xrot) * (arcCenterLocal p1 p2 radii xrot la sw).1 -
        Real.sin (toRadians xrot) * (arcCenterLocal p1 p2 radii xrot la sw).2 +
        (p1.1 + p2.1) / 2 := rfl
  have hcy : (arc_center_angles p1 p2 radii xrot la sw).2.1 =
      Real.sin (toRadians xrot) * (arcCenterLocal p1 p2 radii xrot la sw).1 +
        Real.cos (toRadians xrot) * (arcCenterLocal p1 p2 radii xrot la sw).2 +
        (p1.2 + p2.2) / 2 := rfl
  have hcs := atan2_cos_sin _ _
    (arc_start_unit p1 p2 radii xrot la sw hrx hry hne)
  unfold ellipse_point
  dsimp only
  rw [hθ, toRadians_deg, hcs.1, hcs.2, hcx, hcy,
    mul_div_cancel₀ _ hr1, mul_div_cancel₀ _ hr2]
  refine Prod.ext ?_ ?_
  · exact rotate_back_start_fst p1 p2 xrot _ _
  · exact rotate_back_start_snd p1 p2 xrot _ _

/-- Forward reconstruction at the computed end angle recovers the end
point. -/
theorem arc_roundtrip_end (p1 p2 : ℝ × ℝ) (radii : ℝ × ℝ) (xrot : ℝ)
    (la sw : Bool) (hrx : 0 < radii.1) (hry : 0 < radii.2) (hne : p1 ≠ p2) :
    ellipse_point
        ((arc_center_angles p1 p2 radii xrot la sw).1,
          (arc_center_angles p1 p2 radii xrot la sw).2.1)
        (effective_radii p1 p2 radii xrot) xrot
        (arc_center_angles p1 p2 radii xrot la sw).2.2.2 = p2 := by
  have hre := effective_radii_pos p1 p2 radii xrot hrx hry
  have hr1 : (effective_radii p1 p2 radii xrot).1 ≠ 0 := ne_of_gt hre.1
  have hr2 : (effective_radii p1 p2 radii xrot).2 ≠ 0 := ne_of_gt hre.2
  have hθ : (arc_center_angles p1 p2 radii xrot la sw).2.2.2 =
      atan2
        ((-(arcLocal p1 p2 xrot).2 -
            (arcCenterLocal p1 p2 radii xrot la sw).2) /
          (effective_radii p1 p2 radii xrot).2)
        ((-(arcLocal p1 p2 xrot).1 -
            (arcCenterLocal p1 p2 radii xrot la sw).1) /
          (effective_radii p1 p2 radii xrot).1) * 180 / Real.pi := rfl
  have hcx : (arc_center_angles p1 p2 radii xrot la sw).1 =
      Real.cos (toRadians xrot) * (arcCenterLocal p1 p2 radii xrot la sw).1 -
        Real.sin (toRadians xrot) * (arcCenterLocal p1 p2 radii xrot la sw).2 +
        (p1.1 + p2.1) / 2 := rfl
  have hcy : (arc_center_angles p1 p2 radii xrot la sw).2.1 =
      Real.sin (toRadians xrot) * (arcCenterLocal p1 p2 radii xrot la sw).1 +
        Real.cos (toRadians xrot) * (arcCenterLocal p1 p2 radii xrot la sw).2 +
        (p1.2 + p2.2) / 2 := rfl
  have hcs := atan2_cos_sin _ _
    (arc_end_unit p1 p2 radii xrot la sw hrx hry hne)
  unfold ellipse_point
  dsimp only
  rw [hθ, toRadians_deg, hcs.1, hcs.2, hcx, hcy,
    mul_div_cancel₀ _ hr1, mul_div_cancel₀ _ hr2]
  refine Prod.ext ?_ ?_
  · exact rotate_back_end_fst p1 p2 xrot _ _
  · exact rotate_back_end_snd p1 p2 xrot _ _

/-- Rotations preserve the plane cross product. -/
theorem cross_rotate (φ A1 B1 A2 B2 : ℝ) :
    (Real.cos φ * A1 - Real.sin φ * B1) * (Real.sin φ * A2 + Real.cos φ * B2) -
      (Real.sin φ * A1 + Real.cos φ * B1) *
        (Real.cos φ * A2 - Real.sin φ * B2) =
    A1 * B2 - B1 * A2 := by
  linear_combination (A1 * B2 - B1 * A2) * Real.sin_sq_add_cos_sq φ

/-- Start-point offset from the center, x coordinate, in rotated form. -/
theorem center_diff_start_fst (p1 p2 : ℝ × ℝ) (xrot w1 w2 : ℝ) :
    p1.1 - (Real.cos (toRadians xrot) * w1 - Real.sin (toRadians xrot) * w2 +
        (p1.1 + p2.1) / 2) =
      Real.cos (toRadians xrot) * ((arcLocal p1 p2 xrot).1 - w1) -
        Real.sin (toRadians xrot) * ((arcLocal p1 p2 xrot).2 - w2) := by
  unfold arcLocal
  dsimp only
  linear_combination ((p2.1 - p1.1) / 2) *
    Real.sin_sq_add_cos_sq (toRadians xrot)

/-- Start-point offset from the center, y coordinate, in rotated form. -/
theorem center_diff_start_snd (p1 p2 : ℝ × ℝ) (xrot w1 w2 : ℝ) :
    p1.2 - (Real.sin (toRadians xrot) * w1 + Real.cos (toRadians xrot) * w2 +
        (p1.2 + p2.2) / 2) =
      Real.sin (toRadians xrot) * ((arcLocal p1 p2 xrot).1 - w1) +
        Real.cos (toRadians xrot) * ((arcLocal p1 p2 xrot).2 - w2) := by
  unfold arcLocal
  dsimp only
  linear_combination ((p2.2 - p1.2) / 2) *
    Real.sin_sq_add_cos_sq (toRadians xrot)

/-- End-point offset from the center, x coordinate, in rotated form. -/
theorem center_diff_end_fst (p1 p2 : ℝ × ℝ) (xrot w1 w2 : ℝ) :
    p2.1 - (Real.cos (toRadians xrot) * w1 - Real.sin (toRadians xrot) * w2 +
        (p1.1 + p2.1) / 2) =
      Real.cos (toRadians xrot) * (-(arcLocal p1 p2 xrot).1 - w1) -
        Real.sin (toRadians xrot) * (-(arcLocal p1 p2 xrot).2 - w2) := by
  unfold arcLocal
  dsimp only
  linear_combination ((p1.1 - p2.1) / 2) *
    Real.sin_sq_add_cos_sq (toRadians xrot)

/-- End-point offset from the center, y coordinate, in rotated form. -/
theorem center_diff_end_snd (p1 p2 : ℝ × ℝ) (xrot w1 w2 : ℝ) :
    p2.2 - (Real.sin (toRadians xrot) * w1 + Real.cos (toRadians xrot) * w2 +
        (p1.2 + p2.2) / 2) =
      Real.sin (toRadians xrot) * (-(arcLocal p1 p2 xrot).1 - w1) +
        Real.cos (toRadians xrot) * (-(arcLocal p1 p2 xrot).2 - w2) := by
  unfold arcLocal
  dsimp only
  linear_combination ((p1.2 - p2.2) / 2) *
    Real.sin_sq_add_cos_sq (toRadians xrot)

/-- The chord cross product about the chosen center, in terms of the signed
center coefficient. -/
theorem arc_cross_value (p1 p2 : ℝ × ℝ) (radii : ℝ × ℝ) (xrot : ℝ)
    (la sw : Bool) (hrx : 0 < radii.1) (hry : 0 < radii.2) :
    crossProd
        (p1.1 - (arc_center_angles p1 p2 radii xrot la sw).1,
          p1.2 - (arc_center_angles p1 p2 radii xrot la sw).2.1)
        (p2.1 - (arc_center_angles p1 p2 radii xrot la sw).1,
          p2.2 - (arc_center_angles p1 p2 radii xrot la sw).2.1) =
      2 * arcCo p1 p2 radii xrot la sw *
        ((effective_radii p1 p2 radii xrot).1 *
            (arcLocal p1 p2 xrot).2 ^ 2 /
              (effective_radii p1 p2 radii xrot).2 +
          (effective_radii p1 p2 radii xrot).2 *
            (arcLocal p1 p2 xrot).1 ^ 2 /
              (effective_radii p1 p2 radii xrot).1) := by
  have hre := effective_radii_pos p1 p2 radii xrot hrx hry
  have hr1 : (effective_radii p1 p2 radii xrot).1 ≠ 0 := ne_of_gt hre.1
  have hr2 : (effective_radii p1 p2 radii xrot).2 ≠ 0 := ne_of_gt hre.2
  have hcx : (arc_center_angles p1 p2 radii xrot la sw).1 =
      Real.cos (toRadians xrot) * (arcCenterLocal p1 p2 radii xrot la sw).1 -
        Real.sin (toRadians xrot) * (arcCenterLocal p1 p2 radii xrot la sw).2 +
        (p1.1 + p2.1) / 2 := rfl
  have hcy : (arc_center_angles p1 p2 radii xrot la sw).2.1 =
      Real.sin (toRadians xrot) * (arcCenterLocal p1 p2 radii xrot la sw).1 +
        Real.cos (toRadians xrot) * (arcCenterLocal p1 p2 radii xrot la sw).2 +
        (p1.2 + p2.2) / 2 := rfl
  have hc1 : (arcCenterLocal p1 p2 radii xrot la sw).1 =
      arcCo p1 p2 radii xrot la sw * (effective_radii p1 p2 radii xrot).1 *
        (arcLocal p1 p2 xrot).2 / (effective_radii p1 p2 radii xrot).2 := rfl
  have hc2 : (arcCenterLocal p1 p2 radii xrot la sw).2 =
      -(arcCo p1 p2 radii xrot la sw * (effective_radii p1 p2 radii xrot).2 *
        (arcLocal p1 p2 xrot).1 / (effective_radii p1 p2 radii xrot).1) := rfl
  unfold crossProd
  dsimp only
  rw [hcx, hcy, center_diff_start_fst, center_diff_start_snd,
    center_diff_end_fst, center_diff_end_snd, cross_rotate, hc1, hc2]
  field_simp
  ring

/-- The sign of the center coefficient follows the large-arc/sweep root
selection. -/
theorem arcCo_sign (p1 p2 : ℝ × ℝ) (radii : ℝ × ℝ) (xrot : ℝ)
    (la sw : Bool) :
    (la ≠ sw → 0 ≤ arcCo p1 p2 radii xrot la sw) ∧
    (la = sw → arcCo p1 p2 radii xrot la sw ≤ 0) := by
  unfold arcCo
  dsimp only
  constructor
  · intro h
    rw [if_pos h, one_mul]
    exact Real.sqrt_nonneg _
  · intro h
    rw [if_neg (not_not_intro h)]
    have h0 := Real.sqrt_nonneg
      (((effective_radii p1 p2 radii xrot).1 ^ 2 *
          (effective_radii p1 p2 radii xrot).2 ^ 2 -
        (effective_radii p1 p2 radii xrot).1 ^ 2 *
          (arcLocal p1 p2 xrot).2 ^ 2 -
        (effective_radii p1 p2 radii xrot).2 ^ 2 *
          (arcLocal p1 p2 xrot).1 ^ 2) /
        ((effective_radii p1 p2 radii xrot).1 ^ 2 *
            (arcLocal p1 p2 xrot).2 ^ 2 +
          (effective_radii p1 p2 radii xrot).2 ^ 2 *
            (arcLocal p1 p2 xrot).1 ^ 2))
    linarith

/-- C1 counterexample: for coincident endpoints (allowed by the claim, which
only constrains the radii to be positive) the solver succeeds but the
forward reconstruction does not return the input point — with start = end =
(0,0) and unit radii the reconstructed start point is (1, 0). -/
theorem c1_arc_roundtrip_counterexample :
    compute_arc_center ((0 : ℝ), (0 : ℝ)) (0, 0) (1, 1) 0 false false =
      Except.ok (0, 0, 0, 0) ∧
    ellipse_point ((0 : ℝ), (0 : ℝ))
        (effective_radii ((0 : ℝ), (0 : ℝ)) (0, 0) (1, 1) 0) 0 0 =
      ((1 : ℝ), (0 : ℝ)) ∧
    ((1 : ℝ), (0 : ℝ)) ≠ ((0 : ℝ), (0 : ℝ)) := by
  have hloc : arcLocal ((0 : ℝ), (0 : ℝ)) (0, 0) 0 = (0, 0) := by
    unfold arcLocal toRadians
    norm_num
  have hlam : arcLambda ((0 : ℝ), (0 : ℝ)) (0, 0) (1, 1) 0 = 0 := by
    unfold arcLambda
    rw [hloc]
    norm_num
  have heff : effective_radii ((0 : ℝ), (0 : ℝ)) (0, 0) (1, 1) 0 = (1, 1) := by
    unfold effective_radii
    rw [hlam]
    norm_num
  have hco : arcCo ((0 : ℝ), (0 : ℝ)) (0, 0) (1, 1) 0 false false = 0 := by
    unfold arcCo
    rw [heff, hloc]
    norm_num
  have hcl : arcCenterLocal ((0 : ℝ), (0 : ℝ)) (0, 0) (1, 1) 0 false false =
      (0, 0) := by
    unfold arcCenterLocal
    rw [heff, hloc, hco]
    norm_num
  have hang : arc_center_angles ((0 : ℝ), (0 : ℝ)) (0, 0) (1, 1) 0 false false =
      (0, 0, 0, 0) := by
    unfold arc_center_angles
    rw [heff, hloc, hcl]
    unfold atan2 toRadians
    norm_num [Complex.arg_zero]
  refine ⟨?_, ?_, ?_⟩
  · unfold compute_arc_center
    rw [if_neg (by norm_num), hang]
  · rw [heff]
    unfold ellipse_point toRadians
    norm_num
  · intro h
    have := congrArg Prod.fst h
    norm_num at this

/-- C1 (amended): for distinct endpoints with positive radii, any x-axis
rotation and any flag combination, the endpoint-to-center parameterization
succeeds, forward reconstruction at the computed start/end angles (using the
effective, minimally scaled radii) returns exactly the input endpoints, and
the chosen center places the arc on the side selected by the large-arc/sweep
combination: the chord cross product about the center is nonnegative when
the flags differ and nonpositive when they agree. -/
theorem c1_arc_solver_roundtrip (p1 p2 radii : ℝ × ℝ) (xrot : ℝ)
    (large_arc sweep : Bool) (hrx : 0 < radii.1) (hry : 0 < radii.2)
    (hne : p1 ≠ p2) :
    ∃ cx cy θ1 θ2,
      compute_arc_center p1 p2 radii xrot large_arc sweep =
        Except.ok (cx, cy, θ1, θ2) ∧
      ellipse_point (cx, cy) (effective_radii p1 p2 radii xrot) xrot θ1 =
        p1 ∧
      ellipse_point (cx, cy) (effective_radii p1 p2 radii xrot) xrot θ2 =
        p2 ∧
      (large_arc ≠ sweep →
        0 ≤ crossProd (p1.1 - cx, p1.2 - cy) (p2.1 - cx, p2.2 - cy)) ∧
      (large_arc = sweep →
        crossProd (p1.1 - cx, p1.2 - cy) (p2.1 - cx, p2.2 - cy) ≤ 0) := by
  have hre := effective_radii_pos p1 p2 radii xrot hrx hry
  have hbr : 0 ≤ (effective_radii p1 p2 radii xrot).1 *
        (arcLocal p1 p2 xrot).2 ^ 2 / (effective_radii p1 p2 radii xrot).2 +
      (effective_radii p1 p2 radii xrot).2 *
        (arcLocal p1 p2 xrot).1 ^ 2 / (effective_radii p1 p2 radii xrot).1 :=
    add_nonneg
      (div_nonneg (mul_nonneg (le_of_lt hre.1) (sq_nonneg _))
        (le_of_lt hre.2))
      (div_nonneg (mul_nonneg (le_of_lt hre.2) (sq_nonneg _))
        (le_of_lt hre.1))
  refine ⟨(arc_center_angles p1 p2 radii xrot large_arc sweep).1,
    (arc_center_angles p1 p2 radii xrot large_arc sweep).2.1,
    (arc_center_angles p1 p2 radii xrot large_arc sweep).2.2.1,
    (arc_center_angles p1 p2 radii xrot large_arc sweep).2.2.2,
    ?_, ?_, ?_, ?_, ?_⟩
  · unfold compute_arc_center
    rw [if_neg]
    intro h
    rcases h with h | h
    · exact absurd h (ne_of_gt hrx)
    · exact absurd h (ne_of_gt hry)
  · exact arc_roundtrip_start p1 p2 radii xrot large_arc sweep hrx hry hne
  · exact arc_roundtrip_end p1 p2 radii xrot large_arc sweep hrx hry hne
  · intro h
    rw [arc_cross_value p1 p2 radii xrot large_arc sweep hrx hry]
    have hco := (arcCo_sign p1 p2 radii xrot large_arc sweep).1 h
    have h2 : 0 ≤ arcCo p1 p2 radii xrot large_arc sweep *
        ((effective_radii p1 p2 radii xrot).1 *
            (arcLocal p1 p2 xrot).2 ^ 2 /
            (effective_radii p1 p2 radii xrot).2 +
          (effective_radii p1 p2 radii xrot).2 *
            (arcLocal p1 p2 xrot).1 ^ 2 /
            (effective_radii p1 p2 radii xrot).1) := mul_nonneg hco hbr
    linarith
  · intro h
    rw [arc_cross_value p1 p2 radii xrot large_arc sweep hrx hry]
    have hco := (arcCo_sign p1 p2 radii xrot large_arc sweep).2 h
    have h2 : arcCo p1 p2 radii xrot large_arc sweep *
        ((effective_radii p1 p2 radii xrot).1 *
            (arcLocal p1 p2 xrot).2 ^ 2 /
            (effective_radii p1 p2 radii xrot).2 +
          (effective_radii p1 p2 radii xrot).2 *
            (arcLocal p1 p2 xrot).1 ^ 2 /
            (effective_radii p1 p2 radii xrot).1) ≤ 0 :=
      mul_nonpos_iff.mpr (Or.inr ⟨hco, hbr⟩)
    linarith

/-- C1 witness: the unit semicircle from (0,0) to (2,0) with both flags
clear. -/
theorem c1_arc_solver_roundtrip_witness :
    (0 : ℝ) < 1 ∧ ((0 : ℝ), (0 : ℝ)) ≠ ((2 : ℝ), (0 : ℝ)) ∧
    (∃ cx cy θ1 θ2,
      compute_arc_center ((0 : ℝ), (0 : ℝ)) ((2 : ℝ), (0 : ℝ)) (1, 1) 0
          false false = Except.ok (cx, cy, θ1, θ2) ∧
      ellipse_point (cx, cy)
          (effective_radii ((0 : ℝ), (0 : ℝ)) ((2 : ℝ), (0 : ℝ)) (1, 1) 0)
          0 θ1 = ((0 : ℝ), (0 : ℝ)) ∧
      ellipse_point (cx, cy)
          (effective_radii ((0 : ℝ), (0 : ℝ)) ((2 : ℝ), (0 : ℝ)) (1, 1) 0)
          0 θ2 = ((2 : ℝ), (0 : ℝ)) ∧
      (false ≠ false →
        0 ≤ crossProd (0 - cx, 0 - cy) (2 - cx, 0 - cy)) ∧
      (false = false →
        crossProd (0 - cx, 0 - cy) (2 - cx, 0 - cy) ≤ 0)) :=
  ⟨one_pos, by norm_num [Prod.ext_iff],
    c1_arc_solver_roundtrip ((0 : ℝ), (0 : ℝ)) ((2 : ℝ), (0 : ℝ)) (1, 1) 0
      false false one_pos one_pos (by norm_num [Prod.ext_iff])⟩

end Nlbn
